import Mathlib

/-!
Verification of the CIRJE workshop scraper (`scraper.py`).

The development shallowly embeds the scraper's pure core: the text helpers
(`strip_weekday`, quotation trimming, the label/regex predicates), the date
resolver (`normalize_date` over a model of `dateutil.parser.parse`), the five
per-source extractors (`parse_macro`, `parse_urban`, `parse_stats`,
`parse_empirical`, `parse_micro`), the encoding-fallback decode chain of
`fetch_html`, and the aggregator `fetch_all` (stable sort by date string).

Network fetching and DOM flattening are abstracted: extractors take the
already-flattened list of non-empty stripped text lines (the result of
`BeautifulSoup(...).get_text("\n").splitlines()` filtering), and the two-step
extractor takes the list of event containers, each carrying its `datetime`
attribute, link presence, and the flattened lines of its detail page.
-/

/-! ### Basic string helpers -/

/-- ASCII letter test, mirroring the character classes of the Python regexes
(`[a-z]` under `re.I`). -/
def isAsciiAlpha (c : Char) : Bool :=
  ('a' ≤ c && c ≤ 'z') || ('A' ≤ c && c ≤ 'Z')

/-- Whitespace as stripped by Python's `str.strip()` (ASCII whitespace plus
the ideographic space that appears on these pages). -/
def isPySpace (c : Char) : Bool :=
  c = ' ' || c = '\t' || c = '\n' || c = '\r' || c = '　'

/-- Trim characters of the set `cs` from both ends of a character list,
mirroring Python's `str.strip(chars)`. -/
def trimSet (cs : List Char) (l : List Char) : List Char :=
  ((l.dropWhile (cs.contains ·)).reverse.dropWhile (cs.contains ·)).reverse

/-- Python `str.strip()` (whitespace from both ends). -/
def pyStrip (s : String) : String :=
  String.mk (((s.toList.dropWhile isPySpace).reverse.dropWhile isPySpace).reverse)

/-- Python `str.rstrip()` (whitespace from the right end). -/
def pyRStrip (s : String) : String :=
  String.mk ((s.toList.reverse.dropWhile isPySpace).reverse)

/-- Python `line.strip('“”"')` as used when capturing content lines. -/
def pyStripQuotes (s : String) : String :=
  String.mk (trimSet ['“', '”', '"'] s.toList)

/-- Substring test on character lists: does `pat` occur as a contiguous
run inside the list?  This is Python's `pat in s`. -/
def containsSub (pat : List Char) : List Char → Bool
  | [] => pat.isEmpty
  | c :: cs => pat.isPrefixOf (c :: cs) || containsSub pat cs

/-- Python's `needle in hay` on strings. -/
def strContains (needle hay : String) : Bool :=
  containsSub needle.toList hay.toList

/-- Python `str.lower()` (per-character ASCII lowering, as `str.lower` acts
on the ASCII labels these pages use). -/
def strToLower (s : String) : String :=
  String.mk (s.toList.map Char.toLower)

/-- Python `s.startswith(pre)`. -/
def strStartsWith (s pre : String) : Bool :=
  pre.toList.isPrefixOf s.toList

/-- Numeric value of a list of decimal digit characters. -/
def natOfDigits (l : List Char) : Nat :=
  l.foldl (fun a c => a * 10 + (c.toNat - 48)) 0

/-- Lexicographic comparison of character lists by code point; this is how
Python compares the ISO date strings when sorting. -/
def lexLe : List Char → List Char → Bool
  | [], _ => true
  | _ :: _, [] => false
  | a :: as, b :: bs => a.toNat < b.toNat || (a.toNat = b.toNat && lexLe as bs)

/-- Python string `<=` (code-point lexicographic). -/
def strLeB (a b : String) : Bool :=
  lexLe a.toList b.toList

/-! ### Calendar dates (model of `datetime.date`) -/

/-- A calendar date; `datetime.date` restricts `year` to `1..9999`, which is
enforced by `Date.valid` wherever Python's constructor would validate. -/
structure Date where
  year : Nat
  month : Nat
  day : Nat
deriving DecidableEq, Repr

/-- Gregorian leap-year test, as in `calendar.isleap`. -/
def isLeap (y : Nat) : Bool :=
  y % 4 = 0 && (y % 100 ≠ 0 || y % 400 = 0)

/-- Number of days of month `m` in year `y`. -/
def daysInMonth (y m : Nat) : Nat :=
  if m = 2 then (if isLeap y then 29 else 28)
  else if m = 4 || m = 6 || m = 9 || m = 11 then 30
  else 31

/-- Validity of a `Date`, as checked by the `datetime.date` constructor. -/
def Date.valid (d : Date) : Bool :=
  1 ≤ d.year && d.year ≤ 9999 && 1 ≤ d.month && d.month ≤ 12 &&
    1 ≤ d.day && d.day ≤ daysInMonth d.year d.month

/-- Python `date` comparison `a < b` (lexicographic on year, month, day). -/
def Date.ltB (a b : Date) : Bool :=
  a.year < b.year || (a.year = b.year &&
    (a.month < b.month || (a.month = b.month && a.day < b.day)))

/-- Python `date` comparison `a <= b`. -/
def Date.leB (a b : Date) : Bool :=
  a.year < b.year || (a.year = b.year &&
    (a.month < b.month || (a.month = b.month && a.day ≤ b.day)))

/-- Left-pad the decimal representation of `n` with zeros to width `w`. -/
def padNum (w n : Nat) : String :=
  let s := toString n
  String.mk (List.replicate (w - s.length) '0') ++ s

/-- Python `date.isoformat()`: `YYYY-MM-DD` with zero padding. -/
def Date.isoformat (d : Date) : String :=
  padNum 4 d.year ++ "-" ++ padNum 2 d.month ++ "-" ++ padNum 2 d.day

/-- Python `date.replace(year=y)`: rebuilds the date with a new year,
re-validating (it raises `ValueError` — here `none` — when the result is not
a valid date, e.g. Feb 29 of a non-leap year). -/
def Date.replaceYear (d : Date) (y : Nat) : Option Date :=
  let d2 : Date := ⟨y, d.month, d.day⟩
  if d2.valid then some d2 else none

/-- Model of `datetime.date.fromisoformat` on the `YYYY-MM-DD` form: ten
characters, digits with dashes at positions 4 and 7, validated. -/
def fromisoformat (s : String) : Option Date :=
  match s.toList with
  | [y1, y2, y3, y4, h1, m1, m2, h2, d1, d2] =>
    if y1.isDigit && y2.isDigit && y3.isDigit && y4.isDigit && h1 = '-' &&
        m1.isDigit && m2.isDigit && h2 = '-' && d1.isDigit && d2.isDigit then
      let d : Date := ⟨natOfDigits [y1, y2, y3, y4], natOfDigits [m1, m2],
                       natOfDigits [d1, d2]⟩
      if d.valid then some d else none
    else none
  | _ => none

/-! ### `strip_weekday` -/

/-- One pass of `re.sub(r"[（(].*?[）)]", "", s)`: at each position, if the
character opens a parenthesis and a closing parenthesis occurs later, the
non-greedy match spans to the first closing parenthesis and is deleted;
otherwise the character is kept.  Recursion is fuelled by the list length. -/
def stripParenAux : Nat → List Char → List Char
  | 0, l => l
  | _ + 1, [] => []
  | fuel + 1, c :: cs =>
    if (c = '(' || c = '（') && cs.any (fun d => d = ')' || d = '）') then
      stripParenAux fuel ((cs.dropWhile (fun d => !(d = ')' || d = '）'))).tail)
    else c :: stripParenAux fuel cs

/-- The scraper's `strip_weekday`: remove every parenthesized substring
(half- or full-width parentheses, non-greedy) and strip surrounding
whitespace. -/
def strip_weekday (s : String) : String :=
  pyStrip (String.mk (stripParenAux (s.toList.length + 1) s.toList))

/-! ### Date resolver (`normalize_date` over a model of `dateutil`) -/

/-- Tokens seen by the fuzzy date parser: ASCII letter runs and ASCII digit
runs (with their digit count, which decides year-versus-day reading). -/
inductive DTok where
  | word (w : String)
  | num (len : Nat) (v : Nat)
deriving DecidableEq, Repr

/-- Split a character list into letter-run and digit-run tokens; anything
else (spaces, punctuation, CJK characters such as 年月日) separates tokens,
as in `dateutil`'s lexer under `fuzzy=True`.  Fuelled by list length. -/
def dtokenize : Nat → List Char → List DTok
  | 0, _ => []
  | _ + 1, [] => []
  | fuel + 1, c :: cs =>
    if c.isDigit then
      DTok.num (c :: cs.takeWhile Char.isDigit).length
          (natOfDigits (c :: cs.takeWhile Char.isDigit)) ::
        dtokenize fuel (cs.dropWhile Char.isDigit)
    else if isAsciiAlpha c then
      DTok.word (String.mk (c :: cs.takeWhile isAsciiAlpha)) ::
        dtokenize fuel (cs.dropWhile isAsciiAlpha)
    else dtokenize fuel cs

/-- English month names and abbreviations recognized by `dateutil`. -/
def monthOfWord (w : String) : Option Nat :=
  let l := strToLower w
  if l = "january" || l = "jan" then some 1
  else if l = "february" || l = "feb" then some 2
  else if l = "march" || l = "mar" then some 3
  else if l = "april" || l = "apr" then some 4
  else if l = "may" then some 5
  else if l = "june" || l = "jun" then some 6
  else if l = "july" || l = "jul" then some 7
  else if l = "august" || l = "aug" then some 8
  else if l = "september" || l = "sep" || l = "sept" then some 9
  else if l = "october" || l = "oct" then some 10
  else if l = "november" || l = "nov" then some 11
  else if l = "december" || l = "dec" then some 12
  else none

/-- Partially assigned date fields during fuzzy parsing. -/
structure DParts where
  year : Option Nat
  month : Option Nat
  day : Option Nat
deriving DecidableEq, Repr

/-- Assign one token to a date field: a month-name word sets the month, any
other word is skipped (`fuzzy=True`); a four-digit number sets the year; a
one- or two-digit number sets the month if unset, otherwise the day.
Conflicting or unusable numbers fail the parse. -/
def assignTok (p : DParts) : DTok → Option DParts
  | DTok.word w =>
    match monthOfWord w with
    | some m => if p.month.isSome then none else some { p with month := some m }
    | none => some p
  | DTok.num 4 v => if p.year.isSome then none else some { p with year := some v }
  | DTok.num len v =>
    if len = 1 || len = 2 then
      if p.month.isNone then some { p with month := some v }
      else if p.day.isNone then some { p with day := some v }
      else none
    else none

/-- Modelled behavior of
`dateutil.parser.parse(s, fuzzy=True, default=datetime(base_year, 1, 1)).date()`
on the date-token shapes this scraper feeds it: an optional four-digit year,
an optional English month name, and month/day numerals (Western
`"Month Day"` and Japanese `"YYYY年M月D日"` forms).  Missing fields are
filled from the default `datetime(base_year, 1, 1)` (whose construction
itself fails for a year outside `1..9999`); a token list that assigns no
field, or an invalid resulting date, is a parse failure (`none`), as
`dateutil` raises `ParserError`/`ValueError` there.  Inputs outside these
shapes are modelled as parse failures. -/
def du_parse (s : String) (base_year : Nat) : Option Date :=
  if base_year < 1 || base_year > 9999 then none
  else
    match (dtokenize (s.toList.length + 1) s.toList).foldlM assignTok ⟨none, none, none⟩ with
    | none => none
    | some p =>
      if p.year = none && p.month = none && p.day = none then none
      else if (⟨p.year.getD base_year, p.month.getD 1, p.day.getD 1⟩ : Date).valid then
        some ⟨p.year.getD base_year, p.month.getD 1, p.day.getD 1⟩
      else none

/-- The scraper's `normalize_date`: fuzzy-parse the raw token with the base
year as default; on failure return `none` (`.ok none`).  Academic-year
rollover: a parsed date strictly before `today` in January–March is moved to
the next year via `date.replace`, whose `ValueError` (for Feb 29, or year
9999) escapes the `try` block and propagates (`.error`). -/
def normalize_date (date_raw : String) (base_year : Nat) (today : Date) :
    Except String (Option Date) :=
  match du_parse date_raw base_year with
  | none => Except.ok none
  | some d =>
    if Date.ltB d today && d.month ≤ 3 then
      match d.replaceYear (d.year + 1) with
      | some d2 => Except.ok (some d2)
      | none => Except.error "ValueError"
    else Except.ok (some d)

/-! ### Event records and emission -/

/-- The scraper's event dictionary `{date, ws, info}` (`date` is the ISO
string stored by the extractors). -/
structure EventRecord where
  date : String
  ws : String
  info : String
deriving DecidableEq, Repr

/-- The emission step shared by the four line-scanning extractors:
`d = normalize_date(date_raw, 2025)` followed by
`if d and d >= TODAY: events.append({...})`.  A `ValueError` escaping
`normalize_date` aborts the extractor. -/
def emitEvent (today : Date) (ws date_raw info : String) :
    Except String (List EventRecord) :=
  match normalize_date date_raw 2025 today with
  | Except.error e => Except.error e
  | Except.ok none => Except.ok []
  | Except.ok (some d) =>
    Except.ok (if Date.leB today d then [⟨Date.isoformat d, ws, info⟩] else [])

/-! ### Label predicates (models of the compiled regexes) -/

/-- `LABEL_RE = re.compile(r"^(日時|Venue|報告|Speaker)", re.I).match`:
case-insensitive prefix match on any of the four labels (used by
`parse_urban` and `parse_stats`). -/
def labelJpMatch (l : String) : Bool :=
  strStartsWith (strToLower l) "日時" || strStartsWith (strToLower l) "venue" ||
    strStartsWith (strToLower l) "報告" || strStartsWith (strToLower l) "speaker"

/-- `ABS_RE = re.compile(r"(abstract|要旨)", re.I).search` of `parse_urban`. -/
def absJpSearch (l : String) : Bool :=
  strContains "abstract" (strToLower l) || strContains "要旨" l

/-- `LABEL_RE = re.compile(r"^(date|venue|speaker)", re.I).match` of
`parse_empirical`. -/
def labelEnMatch (l : String) : Bool :=
  strStartsWith (strToLower l) "date" || strStartsWith (strToLower l) "venue" ||
    strStartsWith (strToLower l) "speaker"

/-- Three-letter month abbreviations of `parse_empirical`'s `DATE_RE`. -/
def monthAbbrevs : List String :=
  ["jan", "feb", "mar", "apr", "may", "jun",
   "jul", "aug", "sep", "oct", "nov", "dec"]

/-- Match of `DATE_RE = (Jan|...|Dec)[a-z]*\s+\d{1,2}` (under `re.I`)
anchored at the given character list: a month abbreviation, any further
ASCII letters, at least one whitespace character, then a digit.  The letter,
whitespace and digit classes are pairwise disjoint, so the greedy quantifiers
are deterministic. -/
def dateReAt (l : List Char) : Bool :=
  match l with
  | c1 :: c2 :: c3 :: rest =>
    monthAbbrevs.contains (String.mk [c1.toLower, c2.toLower, c3.toLower]) &&
      (let r1 := rest.dropWhile isAsciiAlpha
       match r1 with
       | d :: _ =>
         isPySpace d && (match r1.dropWhile isPySpace with
                         | e :: _ => e.isDigit
                         | [] => false)
       | [] => false)
  | _ => false

/-- `DATE_RE.search`: the anchored match tried at every position. -/
def dateReSearch (s : String) : Bool :=
  (List.range s.toList.length).any (fun i => dateReAt (s.toList.drop i))

/-- Match of `ST_RE = speaker\s*(?:&|and)\s*title` (under `re.I`) anchored
at the given character list. -/
def stReAt (l : List Char) : Bool :=
  if strToLower (String.mk (l.take 7)) = "speaker" then
    let r1 := (l.drop 7).dropWhile isPySpace
    let r2 :=
      match r1 with
      | '&' :: r => some r
      | a :: n :: d :: r =>
        if a.toLower = 'a' && n.toLower = 'n' && d.toLower = 'd' then some r
        else none
      | _ => none
    match r2 with
    | some r => strToLower (String.mk ((r.dropWhile isPySpace).take 5)) = "title"
    | none => false
  else false

/-- `ST_RE.search`: the anchored match tried at every position. -/
def stReSearch (s : String) : Bool :=
  (List.range s.toList.length).any (fun i => stReAt (s.toList.drop i))

/-! ### Content-capture loops -/

/-- Content capture of `parse_macro`: walk forward until a line starting
(case-insensitively) with `"date"`, skipping lines starting with `"title"`,
collecting every other non-empty line with surrounding quotation marks
trimmed.  Returns the captured content and the remaining lines. -/
def captureMacro : List String → List String × List String
  | [] => ([], [])
  | l :: ls =>
    if strStartsWith (strToLower l) "date" then ([], l :: ls)
    else if strStartsWith (strToLower l) "title" then captureMacro ls
    else
      let p := captureMacro ls
      (if l = "" then p.1 else pyStripQuotes l :: p.1, p.2)

/-- The stop condition of `parse_urban`'s capture loop: a line starting with
`日時`, a `LABEL_RE` match, or an `ABS_RE` (abstract/要旨) hit. -/
def stopUrban (l : String) : Bool :=
  strStartsWith l "日時" || labelJpMatch l || absJpSearch l

/-- Content capture of `parse_urban`. -/
def captureUrban : List String → List String × List String
  | [] => ([], [])
  | l :: ls =>
    if stopUrban l then ([], l :: ls)
    else
      let p := captureUrban ls
      (if l = "" then p.1 else pyStripQuotes l :: p.1, p.2)

/-- The stop condition of `parse_stats`'s capture loop: a line starting with
`日時`, an `"abstract"` hit (its `ABS_RE` has no `要旨` alternative), or a
`LABEL_RE` match. -/
def stopStats (l : String) : Bool :=
  strStartsWith l "日時" || strContains "abstract" (strToLower l) || labelJpMatch l

/-- Content capture of `parse_stats`. -/
def captureStats : List String → List String × List String
  | [] => ([], [])
  | l :: ls =>
    if stopStats l then ([], l :: ls)
    else
      let p := captureStats ls
      (if l = "" then p.1 else pyStripQuotes l :: p.1, p.2)

/-- Content capture of `parse_empirical`: stops at a `^(date|venue|speaker)`
match or an `"abstract"` hit. -/
def captureEmf : List String → List String × List String
  | [] => ([], [])
  | l :: ls =>
    if labelEnMatch l || strContains "abstract" (strToLower l) then ([], l :: ls)
    else
      let p := captureEmf ls
      (if l = "" then p.1 else pyStripQuotes l :: p.1, p.2)

/-! ### The four line-scanning extractors -/

/-- Loop body of `parse_macro`, fuelled (each iteration consumes at least
one line, so `lines.length + 1` fuel always suffices).  Mirrors: break on a
"past seminars" line; on a `date` label line take the next line as the raw
date, seek the `speaker` label, break if it is the last line or absent, then
capture content, join with `", "`, and emit when the date resolves to
today or later. -/
def parse_macro_go (today : Date) :
    Nat → List String → List EventRecord → Except String (List EventRecord)
  | 0, _, events => Except.ok events
  | _ + 1, [], events => Except.ok events
  | fuel + 1, l :: rest, events =>
    if strContains "past seminars" (strToLower l) then Except.ok events
    else if strStartsWith (strToLower l) "date" then
      match rest with
      | [] => Except.ok events
      | dateLine :: rest2 =>
        let date_raw := strip_weekday dateLine
        let r1 := rest2.dropWhile (fun x => !(strStartsWith (strToLower x) "speaker"))
        if r1.length ≤ 1 then Except.ok events
        else
          let p := captureMacro r1.tail
          if p.1 = [] then parse_macro_go today fuel p.2 events
          else
            match emitEvent today "Macroeconomics WS" date_raw
                (", ".intercalate p.1) with
            | Except.error e => Except.error e
            | Except.ok new => parse_macro_go today fuel p.2 (events ++ new)
    else parse_macro_go today fuel rest events

/-- `parse_macro` on the flattened line list of the page. -/
def parse_macro (lines : List String) (today : Date) :
    Except String (List EventRecord) :=
  parse_macro_go today (lines.length + 1) lines []

/-- Loop body of `parse_urban` (date label `日時`, content label `報告`,
capture stops at labels and abstract/要旨 markers). -/
def parse_urban_go (today : Date) :
    Nat → List String → List EventRecord → Except String (List EventRecord)
  | 0, _, events => Except.ok events
  | _ + 1, [], events => Except.ok events
  | fuel + 1, l :: rest, events =>
    if strContains "past seminars" (strToLower l) then Except.ok events
    else if strStartsWith l "日時" then
      match rest with
      | [] => Except.ok events
      | dateLine :: rest2 =>
        let date_raw := strip_weekday dateLine
        let r1 := rest2.dropWhile (fun x => !(strStartsWith x "報告"))
        if r1.length ≤ 1 then Except.ok events
        else
          let p := captureUrban r1.tail
          if p.1 = [] then parse_urban_go today fuel p.2 events
          else
            match emitEvent today "Urban Economics WS" date_raw
                (", ".intercalate p.1) with
            | Except.error e => Except.error e
            | Except.ok new => parse_urban_go today fuel p.2 (events ++ new)
    else parse_urban_go today fuel rest events

/-- `parse_urban` on the flattened line list of the page. -/
def parse_urban (lines : List String) (today : Date) :
    Except String (List EventRecord) :=
  parse_urban_go today (lines.length + 1) lines []

/-- Loop body of `parse_stats` (like `parse_urban` but with no
"past seminars" break and an `ABS_RE` lacking the `要旨` alternative). -/
def parse_stats_go (today : Date) :
    Nat → List String → List EventRecord → Except String (List EventRecord)
  | 0, _, events => Except.ok events
  | _ + 1, [], events => Except.ok events
  | fuel + 1, l :: rest, events =>
    if strStartsWith l "日時" then
      match rest with
      | [] => Except.ok events
      | dateLine :: rest2 =>
        let date_raw := strip_weekday dateLine
        let r1 := rest2.dropWhile (fun x => !(strStartsWith x "報告"))
        if r1.length ≤ 1 then Except.ok events
        else
          let p := captureStats r1.tail
          if p.1 = [] then parse_stats_go today fuel p.2 events
          else
            match emitEvent today "Applied Statistics WS" date_raw
                (", ".intercalate p.1) with
            | Except.error e => Except.error e
            | Except.ok new => parse_stats_go today fuel p.2 (events ++ new)
    else parse_stats_go today fuel rest events

/-- `parse_stats` on the flattened line list of the page. -/
def parse_stats (lines : List String) (today : Date) :
    Except String (List EventRecord) :=
  parse_stats_go today (lines.length + 1) lines []

/-- Truthiness of the `last_date` variable of `parse_empirical` (Python
treats both `None` and the empty string as false). -/
def truthyOpt : Option String → Bool
  | none => false
  | some s => s ≠ ""

/-- Loop body of `parse_empirical`: an inline `DATE_RE` line updates
`last_date`; a `ST_RE` ("Speaker & Title") line starts content capture from
the following line; emission requires a truthy `last_date` and non-empty
content. -/
def parse_empirical_go (today : Date) :
    Nat → List String → Option String → List EventRecord →
      Except String (List EventRecord)
  | 0, _, _, events => Except.ok events
  | _ + 1, [], _, events => Except.ok events
  | fuel + 1, l :: rest, last_date, events =>
    if strContains "past seminars" (strToLower l) || strContains "以下本年度終了分" l then
      Except.ok events
    else if dateReSearch l then
      parse_empirical_go today fuel rest (some (strip_weekday l)) events
    else if stReSearch l then
      let p := captureEmf rest
      if !(truthyOpt last_date) || p.1 = [] then
        parse_empirical_go today fuel p.2 last_date events
      else
        match emitEvent today "Empirical Micro WS" (last_date.getD "")
            (", ".intercalate p.1) with
        | Except.error e => Except.error e
        | Except.ok new => parse_empirical_go today fuel p.2 last_date (events ++ new)
    else parse_empirical_go today fuel rest last_date events

/-- `parse_empirical` on the flattened line list of the page. -/
def parse_empirical (lines : List String) (today : Date) :
    Except String (List EventRecord) :=
  parse_empirical_go today (lines.length + 1) lines none []

/-! ### The two-step Micro Theory extractor -/

/-- One event container of the list page consumed by `parse_micro`: the
`datetime` attribute of its `<time>` element (absent when the element or
attribute is missing), whether a detail-page link is present, and the
flattened line list of the fetched detail page. -/
structure MicroEntry where
  time_datetime : Option String
  has_href : Bool
  detailLines : List String

/-- Python `s.split("T")[0]`: the prefix of `s` before the first `"T"`
(the whole string when there is none). -/
def beforeCharT (s : String) : String :=
  String.mk (s.toList.takeWhile (fun c => !(c = 'T')))

/-- The prefix of a line before the first occurrence of the pattern (Python
`ln.split(pat)[0]`; the whole line when the pattern does not occur). -/
def beforeSub (pat : List Char) : List Char → List Char
  | [] => []
  | c :: cs => if pat.isPrefixOf (c :: cs) then [] else c :: beforeSub pat cs

/-- The suffix of a character list after the first occurrence of `sep`
(`none` when `sep` does not occur). -/
def afterCharAux (sep : Char) : List Char → Option (List Char)
  | [] => none
  | c :: cs => if c = sep then some cs else afterCharAux sep cs

/-- Python `s.split(sep, 1)[-1]` for a single-character separator: the part
after the first occurrence, or the whole string when absent. -/
def afterChar (sep : Char) (s : String) : String :=
  match afterCharAux sep s.toList with
  | some r => String.mk r
  | none => s

/-- The speaker extracted from a detail-page line containing the workshop
marker: `ln.split("Microeconomic Theory Workshop")[0].strip("　 ").rstrip()`. -/
def microAuthorOf (ln : String) : String :=
  pyRStrip (String.mk (trimSet ['　', ' ']
    (beforeSub "Microeconomic Theory Workshop".toList ln.toList)))

/-- The title extracted from a `title:`/`タイトル:` line:
`ln.split(":", 1)[-1].split("：", 1)[-1].strip()`. -/
def microTitleOf (ln : String) : String :=
  pyStrip (afterChar '：' (afterChar ':' ln))

/-- The author/title scan over the detail-page lines of `parse_micro`: each
line containing the workshop marker overwrites the author, each
`title:`/`タイトル:` line overwrites the title, and the loop breaks once
both are truthy (non-`None` and non-empty). -/
def microScan : List String → Option String → Option String →
    Option String × Option String
  | [], a, t => (a, t)
  | ln :: rest, a, t =>
    let a2 := if strContains "Microeconomic Theory Workshop" ln then
        some (microAuthorOf ln) else a
    let t2 := if strStartsWith (strToLower ln) "title:" || strStartsWith (strToLower ln) "タイトル:" then
        some (microTitleOf ln) else t
    if truthyOpt a2 && truthyOpt t2 then (a2, t2) else microScan rest a2 t2

/-- Loop body of `parse_micro`: entries without a `datetime` attribute or a
detail link are skipped; the date is the attribute's prefix before `"T"`,
checked by `date.fromisoformat` (whose `ValueError` on a malformed value
propagates out of the extractor) and compared against today; speaker/title
come from the detail-page scan, with the TBA collapse and `", "` join; the
emitted record stores the `d_iso` string verbatim. -/
def parse_micro_go (today : Date) :
    List MicroEntry → List EventRecord → Except String (List EventRecord)
  | [], events => Except.ok events
  | ent :: rest, events =>
    match ent.time_datetime with
    | none => parse_micro_go today rest events
    | some dtAttr =>
      let d_iso := beforeCharT dtAttr
      match fromisoformat d_iso with
      | none => Except.error "ValueError"
      | some d =>
        if Date.ltB d today then parse_micro_go today rest events
        else if !ent.has_href then parse_micro_go today rest events
        else
          let at2 := microScan ent.detailLines none none
          if !(truthyOpt at2.1) || !(truthyOpt at2.2) then
            parse_micro_go today rest events
          else
            let author := at2.1.getD ""
            let title := at2.2.getD ""
            let info := if strContains "tba" (strToLower (author ++ title)) then "TBA"
              else author ++ ", " ++ title
            parse_micro_go today rest (events ++ [⟨d_iso, "Micro Theory WS", info⟩])

/-- `parse_micro` on the structured list-page entries. -/
def parse_micro (entries : List MicroEntry) (today : Date) :
    Except String (List EventRecord) :=
  parse_micro_go today entries []

/-! ### The encoding-fallback decode chain of `fetch_html`

The four codecs are Python-library collaborators.  Their byte-level
structure (which inputs decode at all) is modelled exactly; ASCII bytes and
the half-width katakana ranges map to their real code points, while the
positions of the double-byte table entries (JIS X 0208/0212 and the vendor
tables), which are large external tables, are represented by an injective
per-codec embedding of the byte pair into private code points.  The claims
depend only on which codec succeeds and on decoded texts being distinct,
never on the identity of a particular kanji. -/

/-- UTF-8 continuation byte test. -/
def utf8Cont (b : Nat) : Bool :=
  0x80 ≤ b && b ≤ 0xBF

/-- Strict UTF-8 decoding (`bytes.decode("utf-8")`): the RFC 3629 forms,
rejecting overlong encodings, surrogates and values beyond `U+10FFFF`. -/
def decodeUtf8 : List Nat → Option (List Char)
  | [] => some []
  | b1 :: rest =>
    if b1 ≤ 0x7F then (decodeUtf8 rest).map (Char.ofNat b1 :: ·)
    else if 0xC2 ≤ b1 && b1 ≤ 0xDF then
      match rest with
      | b2 :: rest2 =>
        if utf8Cont b2 then
          (decodeUtf8 rest2).map (Char.ofNat ((b1 - 0xC0) * 64 + (b2 - 0x80)) :: ·)
        else none
      | [] => none
    else if 0xE0 ≤ b1 && b1 ≤ 0xEF then
      match rest with
      | b2 :: b3 :: rest2 =>
        if (if b1 = 0xE0 then 0xA0 ≤ b2 && b2 ≤ 0xBF
            else if b1 = 0xED then 0x80 ≤ b2 && b2 ≤ 0x9F
            else utf8Cont b2) && utf8Cont b3 then
          (decodeUtf8 rest2).map
            (Char.ofNat ((b1 - 0xE0) * 4096 + (b2 - 0x80) * 64 + (b3 - 0x80)) :: ·)
        else none
      | _ => none
    else if 0xF0 ≤ b1 && b1 ≤ 0xF4 then
      match rest with
      | b2 :: b3 :: b4 :: rest2 =>
        if (if b1 = 0xF0 then 0x90 ≤ b2 && b2 ≤ 0xBF
            else if b1 = 0xF4 then 0x80 ≤ b2 && b2 ≤ 0x8F
            else utf8Cont b2) && utf8Cont b3 && utf8Cont b4 then
          (decodeUtf8 rest2).map
            (Char.ofNat ((b1 - 0xF0) * 262144 + (b2 - 0x80) * 4096 +
              (b3 - 0x80) * 64 + (b4 - 0x80)) :: ·)
        else none
      | _ => none
    else none

/-- Half-width katakana code point for a JIS X 0201 byte in `0xA1..0xDF`. -/
def kanaChar (b : Nat) : Char :=
  Char.ofNat (0xFF61 + (b - 0xA1))

/-- EUC-JP decoding (`bytes.decode("euc_jp")`): ASCII, `0x8E` + half-width
katakana, `0x8F` + a JIS X 0212 pair, or a JIS X 0208 pair in
`0xA1..0xFE`. -/
def decodeEucJp : List Nat → Option (List Char)
  | [] => some []
  | b1 :: rest =>
    if b1 ≤ 0x7F then (decodeEucJp rest).map (Char.ofNat b1 :: ·)
    else if b1 = 0x8E then
      match rest with
      | b2 :: rest2 =>
        if 0xA1 ≤ b2 && b2 ≤ 0xDF then (decodeEucJp rest2).map (kanaChar b2 :: ·)
        else none
      | [] => none
    else if b1 = 0x8F then
      match rest with
      | b2 :: b3 :: rest2 =>
        if 0xA1 ≤ b2 && b2 ≤ 0xFE && 0xA1 ≤ b3 && b3 ≤ 0xFE then
          (decodeEucJp rest2).map (Char.ofNat (0x30000 + b2 * 256 + b3) :: ·)
        else none
      | _ => none
    else if 0xA1 ≤ b1 && b1 ≤ 0xFE then
      match rest with
      | b2 :: rest2 =>
        if 0xA1 ≤ b2 && b2 ≤ 0xFE then
          (decodeEucJp rest2).map (Char.ofNat (0x20000 + b1 * 256 + b2) :: ·)
        else none
      | [] => none
    else none

/-- Shift_JIS trail byte test: `0x40..0xFC` except `0x7F`. -/
def sjisTrail (b : Nat) : Bool :=
  0x40 ≤ b && b ≤ 0xFC && b ≠ 0x7F

/-- Shift_JIS decoding (`bytes.decode("shift_jis")`): ASCII, half-width
katakana singles in `0xA1..0xDF`, or a double-byte pair with lead in
`0x81..0x9F` or `0xE0..0xEF`. -/
def decodeSjis : List Nat → Option (List Char)
  | [] => some []
  | b1 :: rest =>
    if b1 ≤ 0x7F then (decodeSjis rest).map (Char.ofNat b1 :: ·)
    else if 0xA1 ≤ b1 && b1 ≤ 0xDF then (decodeSjis rest).map (kanaChar b1 :: ·)
    else if (0x81 ≤ b1 && b1 ≤ 0x9F) || (0xE0 ≤ b1 && b1 ≤ 0xEF) then
      match rest with
      | b2 :: rest2 =>
        if sjisTrail b2 then
          (decodeSjis rest2).map (Char.ofNat (0x40000 + b1 * 256 + b2) :: ·)
        else none
      | [] => none
    else none

/-- CP932 decoding (`bytes.decode("cp932")`): like Shift_JIS with the
vendor-extended lead range `0xE0..0xFC`. -/
def decodeCp932 : List Nat → Option (List Char)
  | [] => some []
  | b1 :: rest =>
    if b1 ≤ 0x7F then (decodeCp932 rest).map (Char.ofNat b1 :: ·)
    else if 0xA1 ≤ b1 && b1 ≤ 0xDF then (decodeCp932 rest).map (kanaChar b1 :: ·)
    else if (0x81 ≤ b1 && b1 ≤ 0x9F) || (0xE0 ≤ b1 && b1 ≤ 0xFC) then
      match rest with
      | b2 :: rest2 =>
        if sjisTrail b2 then
          (decodeCp932 rest2).map (Char.ofNat (0x50000 + b1 * 256 + b2) :: ·)
        else none
      | [] => none
    else none

/-- The last-resort `resp.text` of `fetch_html`: requests' best-effort
decode, modelled as a total per-byte (latin-1 style) lossy decode — the
claims use only that it is total and never raises. -/
def lossyDecode (bs : List Nat) : String :=
  String.mk (bs.map Char.ofNat)

/-- The decode chain of `fetch_html`: try UTF-8, EUC-JP, Shift_JIS and
CP932 in that order, returning the first successful decode, and fall back to
the lossy decode when every codec fails. -/
def fetch_decode (bs : List Nat) : String :=
  match decodeUtf8 bs with
  | some cs => String.mk cs
  | none =>
    match decodeEucJp bs with
    | some cs => String.mk cs
    | none =>
      match decodeSjis bs with
      | some cs => String.mk cs
      | none =>
        match decodeCp932 bs with
        | some cs => String.mk cs
        | none => lossyDecode bs

/-! ### The aggregator `fetch_all` -/

/-- Order on event records used by `all_events.sort(key=lambda x: x["date"])`:
comparison of the ISO date strings. -/
def eventLe (a b : EventRecord) : Prop :=
  strLeB a.date b.date = true

instance : DecidableRel eventLe :=
  fun a b => inferInstanceAs (Decidable (strLeB a.date b.date = true))

/-- Python's `list.sort` is a stable sort by the key; stable sorts by a
fixed key agree on all inputs, so it is embedded as the stable insertion
sort by the date string. -/
def sortEvents (l : List EventRecord) : List EventRecord :=
  List.insertionSort eventLe l

/-- The stderr line `f"[ERROR] {key}: {e}"` of `fetch_all`. -/
def logMsg (key e : String) : String :=
  "[ERROR] " ++ key ++ ": " ++ e

/-- The aggregator `fetch_all` over the outcome of each registered parser
(in registry order): successes extend the event list, an exception is caught
and logged, and the collected events are sorted by date at the end.  Returns
the sorted events and the error log. -/
def fetch_all (parsers : List (String × Except String (List EventRecord))) :
    List EventRecord × List String :=
  let p := parsers.foldl
    (fun acc kv =>
      match kv.2 with
      | Except.ok evs => (acc.1 ++ evs, acc.2)
      | Except.error e => (acc.1, acc.2 ++ [logMsg kv.1 e]))
    ([], [])
  (sortEvents p.1, p.2)

/-- Modelled from the spec: the concatenation of the successful extractors'
records in registry order — the reference value for the aggregation
claims. -/
def successRecords : List (String × Except String (List EventRecord)) →
    List EventRecord
  | [] => []
  | (_, Except.ok evs) :: ps => evs ++ successRecords ps
  | (_, Except.error _) :: ps => successRecords ps

/-- Modelled from the spec: one log line per failing extractor, in registry
order. -/
def failureLogs : List (String × Except String (List EventRecord)) →
    List String
  | [] => []
  | (_, Except.ok _) :: ps => failureLogs ps
  | (k, Except.error e) :: ps => logMsg k e :: failureLogs ps

/-! ### Helper lemmas -/

theorem lexLe_refl : ∀ l : List Char, lexLe l l = true
  | [] => rfl
  | a :: as => by simp [lexLe, lexLe_refl as]

theorem lexLe_total : ∀ a b : List Char, lexLe a b = true ∨ lexLe b a = true
  | [], _ => Or.inl rfl
  | _ :: _, [] => Or.inr rfl
  | a :: as, b :: bs => by
    rcases Nat.lt_trichotomy a.toNat b.toNat with h | h | h
    · exact Or.inl (by simp [lexLe, h])
    · rcases lexLe_total as bs with h2 | h2
      · exact Or.inl (by simp [lexLe, h, h2])
      · exact Or.inr (by simp [lexLe, h.symm, h2])
    · exact Or.inr (by simp [lexLe, h])

theorem lexLe_trans : ∀ a b c : List Char,
    lexLe a b = true → lexLe b c = true → lexLe a c = true
  | [], _, _, _, _ => rfl
  | _ :: _, [], _, h, _ => by cases h
  | _ :: _, _ :: _, [], _, h => by cases h
  | a :: as, b :: bs, c :: cs, h1, h2 => by
    simp only [lexLe, Bool.or_eq_true, Bool.and_eq_true, decide_eq_true_eq] at h1 h2 ⊢
    rcases h1 with h1 | ⟨h1e, h1r⟩ <;> rcases h2 with h2 | ⟨h2e, h2r⟩
    · exact Or.inl (h1.trans h2)
    · exact Or.inl (h2e ▸ h1)
    · exact Or.inl (h1e ▸ h2)
    · exact Or.inr ⟨h1e.trans h2e, lexLe_trans as bs cs h1r h2r⟩

instance : IsTotal EventRecord eventLe :=
  ⟨fun a b => lexLe_total a.date.toList b.date.toList⟩

instance : IsTrans EventRecord eventLe :=
  ⟨fun _ _ _ => lexLe_trans _ _ _⟩

theorem eventLe_of_date_eq {x y : EventRecord} (h : x.date = y.date) : eventLe x y := by
  unfold eventLe strLeB
  rw [h]
  exact lexLe_refl _

theorem date_ne_of_not_eventLe {x y : EventRecord} (h : ¬ eventLe x y) :
    x.date ≠ y.date :=
  fun he => h (eventLe_of_date_eq he)

theorem Date.leB_of_not_ltB {a b : Date} (h : ¬ Date.ltB a b = true) :
    Date.leB b a = true := by
  simp only [Date.ltB, Date.leB, Bool.or_eq_true, Bool.and_eq_true,
    decide_eq_true_eq, not_or, not_and, not_lt] at h ⊢
  omega

theorem emitEvent_good {today : Date} {ws raw info : String}
    {new : List EventRecord} (h : emitEvent today ws raw info = Except.ok new) :
    ∀ e ∈ new, ∃ d, Date.leB today d = true ∧ e.date = Date.isoformat d := by
  intro e he
  unfold emitEvent at h
  split at h
  · cases h
  · cases h
    cases he
  · next d _ =>
    cases h
    split at he
    · next hle =>
      rw [List.mem_singleton] at he
      subst he
      exact ⟨d, hle, rfl⟩
    · cases he

theorem parse_macro_go_good (today : Date) :
    ∀ (fuel : Nat) (lines : List String) (events evs : List EventRecord),
      (∀ e ∈ events, ∃ d, Date.leB today d = true ∧ e.date = Date.isoformat d) →
      parse_macro_go today fuel lines events = Except.ok evs →
      ∀ e ∈ evs, ∃ d, Date.leB today d = true ∧ e.date = Date.isoformat d := by
  intro fuel
  induction fuel with
  | zero =>
    intro lines events evs hev h
    simp only [parse_macro_go] at h
    cases h
    exact hev
  | succ fuel ih =>
    intro lines events evs hev h
    cases lines with
    | nil =>
      simp only [parse_macro_go] at h
      cases h
      exact hev
    | cons l rest =>
      simp only [parse_macro_go] at h
      split at h
      · cases h; exact hev
      · split at h
        · split at h
          · cases h; exact hev
          · split at h
            · cases h; exact hev
            · split at h
              · exact ih _ _ _ hev h
              · split at h
                · cases h
                · next new heq =>
                  refine ih _ _ _ ?_ h
                  intro e he
                  rcases List.mem_append.mp he with h1 | h2
                  · exact hev e h1
                  · exact emitEvent_good heq e h2
        · exact ih _ _ _ hev h

theorem parse_urban_go_good (today : Date) :
    ∀ (fuel : Nat) (lines : List String) (events evs : List EventRecord),
      (∀ e ∈ events, ∃ d, Date.leB today d = true ∧ e.date = Date.isoformat d) →
      parse_urban_go today fuel lines events = Except.ok evs →
      ∀ e ∈ evs, ∃ d, Date.leB today d = true ∧ e.date = Date.isoformat d := by
  intro fuel
  induction fuel with
  | zero =>
    intro lines events evs hev h
    simp only [parse_urban_go] at h
    cases h
    exact hev
  | succ fuel ih =>
    intro lines events evs hev h
    cases lines with
    | nil =>
      simp only [parse_urban_go] at h
      cases h
      exact hev
    | cons l rest =>
      simp only [parse_urban_go] at h
      split at h
      · cases h; exact hev
      · split at h
        · split at h
          · cases h; exact hev
          · split at h
            · cases h; exact hev
            · split at h
              · exact ih _ _ _ hev h
              · split at h
                · cases h
                · next new heq =>
                  refine ih _ _ _ ?_ h
                  intro e he
                  rcases List.mem_append.mp he with h1 | h2
                  · exact hev e h1
                  · exact emitEvent_good heq e h2
        · exact ih _ _ _ hev h

theorem parse_stats_go_good (today : Date) :
    ∀ (fuel : Nat) (lines : List String) (events evs : List EventRecord),
      (∀ e ∈ events, ∃ d, Date.leB today d = true ∧ e.date = Date.isoformat d) →
      parse_stats_go today fuel lines events = Except.ok evs →
      ∀ e ∈ evs, ∃ d, Date.leB today d = true ∧ e.date = Date.isoformat d := by
  intro fuel
  induction fuel with
  | zero =>
    intro lines events evs hev h
    simp only [parse_stats_go] at h
    cases h
    exact hev
  | succ fuel ih =>
    intro lines events evs hev h
    cases lines with
    | nil =>
      simp only [parse_stats_go] at h
      cases h
      exact hev
    | cons l rest =>
      simp only [parse_stats_go] at h
      split at h
      · split at h
        · cases h; exact hev
        · split at h
          · cases h; exact hev
          · split at h
            · exact ih _ _ _ hev h
            · split at h
              · cases h
              · next new heq =>
                refine ih _ _ _ ?_ h
                intro e he
                rcases List.mem_append.mp he with h1 | h2
                · exact hev e h1
                · exact emitEvent_good heq e h2
      · exact ih _ _ _ hev h

theorem parse_empirical_go_good (today : Date) :
    ∀ (fuel : Nat) (lines : List String) (last_date : Option String)
      (events evs : List EventRecord),
      (∀ e ∈ events, ∃ d, Date.leB today d = true ∧ e.date = Date.isoformat d) →
      parse_empirical_go today fuel lines last_date events = Except.ok evs →
      ∀ e ∈ evs, ∃ d, Date.leB today d = true ∧ e.date = Date.isoformat d := by
  intro fuel
  induction fuel with
  | zero =>
    intro lines last_date events evs hev h
    simp only [parse_empirical_go] at h
    cases h
    exact hev
  | succ fuel ih =>
    intro lines last_date events evs hev h
    cases lines with
    | nil =>
      simp only [parse_empirical_go] at h
      cases h
      exact hev
    | cons l rest =>
      simp only [parse_empirical_go] at h
      split at h
      · cases h; exact hev
      · split at h
        · exact ih _ _ _ _ hev h
        · split at h
          · split at h
            · exact ih _ _ _ _ hev h
            · split at h
              · cases h
              · next new heq =>
                refine ih _ _ _ _ ?_ h
                intro e he
                rcases List.mem_append.mp he with h1 | h2
                · exact hev e h1
                · exact emitEvent_good heq e h2
          · exact ih _ _ _ _ hev h

theorem parse_micro_go_good (today : Date) :
    ∀ (entries : List MicroEntry) (events evs : List EventRecord),
      (∀ e ∈ events, ∃ d, fromisoformat e.date = some d ∧ Date.leB today d = true) →
      parse_micro_go today entries events = Except.ok evs →
      ∀ e ∈ evs, ∃ d, fromisoformat e.date = some d ∧ Date.leB today d = true := by
  intro entries
  induction entries with
  | nil =>
    intro events evs hev h
    simp only [parse_micro_go] at h
    cases h
    exact hev
  | cons ent rest ih =>
    intro events evs hev h
    simp only [parse_micro_go] at h
    split at h
    · exact ih _ _ hev h
    · split at h
      · cases h
      · next d hd =>
        split at h
        · exact ih _ _ hev h
        · next hlt =>
          split at h
          · exact ih _ _ hev h
          · split at h
            · exact ih _ _ hev h
            · refine ih _ _ ?_ h
              intro e he
              rcases List.mem_append.mp he with h1 | h2
              · exact hev e h1
              · rw [List.mem_singleton] at h2
                subst h2
                exact ⟨d, hd, Date.leB_of_not_ltB hlt⟩

theorem parse_micro_go_dates (today : Date) :
    ∀ (entries : List MicroEntry) (events evs : List EventRecord),
      parse_micro_go today entries events = Except.ok evs →
      ∀ e ∈ evs, e ∈ events ∨
        ∃ ent ∈ entries, ∃ s, ent.time_datetime = some s ∧ e.date = beforeCharT s := by
  intro entries
  induction entries with
  | nil =>
    intro events evs h e he
    simp only [parse_micro_go] at h
    cases h
    exact Or.inl he
  | cons ent rest ih =>
    intro events evs h e he
    simp only [parse_micro_go] at h
    have liftTail :
        (e ∈ events ∨ ∃ ent2 ∈ rest, ∃ s, ent2.time_datetime = some s ∧
          e.date = beforeCharT s) →
        e ∈ events ∨ ∃ ent2 ∈ ent :: rest, ∃ s, ent2.time_datetime = some s ∧
          e.date = beforeCharT s := by
      rintro (h1 | ⟨ent2, hm, s, hs, hd⟩)
      · exact Or.inl h1
      · exact Or.inr ⟨ent2, List.mem_cons_of_mem _ hm, s, hs, hd⟩
    split at h
    · exact liftTail (ih _ _ h e he)
    · next dtAttr hAttr =>
      split at h
      · cases h
      · split at h
        · exact liftTail (ih _ _ h e he)
        · split at h
          · exact liftTail (ih _ _ h e he)
          · split at h
            · exact liftTail (ih _ _ h e he)
            · rcases ih _ _ h e he with h1 | ⟨ent2, hm, s, hs, hd⟩
              · rcases List.mem_append.mp h1 with h2 | h2
                · exact Or.inl h2
                · rw [List.mem_singleton] at h2
                  subst h2
                  exact Or.inr ⟨ent, List.mem_cons_self _ _, dtAttr, hAttr, rfl⟩
              · exact Or.inr ⟨ent2, List.mem_cons_of_mem _ hm, s, hs, hd⟩

theorem du_parse_valid {s : String} {y : Nat} {d : Date}
    (h : du_parse s y = some d) : d.valid = true := by
  unfold du_parse at h
  split at h
  · cases h
  · split at h
    · cases h
    · split at h
      · cases h
      · split at h
        · next hv =>
          cases h
          exact hv
        · cases h

theorem replaceYear_succ {d : Date} (hv : d.valid = true) :
    d.replaceYear (d.year + 1) =
      if d.month = 2 ∧ d.day = 29 ∨ d.year = 9999 then none
      else some ⟨d.year + 1, d.month, d.day⟩ := by
  obtain ⟨y, m, dd⟩ := d
  unfold Date.replaceYear
  simp only [Date.valid, daysInMonth, isLeap, Bool.and_eq_true, Bool.or_eq_true,
    decide_eq_true_eq] at hv ⊢
  split_ifs at hv ⊢ <;> simp_all <;> omega

theorem filter_orderedInsert (k : String) (x : EventRecord) :
    ∀ l : List EventRecord,
      (List.orderedInsert eventLe x l).filter (fun e => e.date == k) =
        if x.date == k then x :: l.filter (fun e => e.date == k)
        else l.filter (fun e => e.date == k) := by
  intro l
  induction l with
  | nil => simp [List.orderedInsert, List.filter_cons]
  | cons y ys ih =>
    rw [List.orderedInsert]
    by_cases hxy : eventLe x y
    · rw [if_pos hxy]
      simp only [List.filter_cons]
    · rw [if_neg hxy]
      have hne : x.date ≠ y.date := date_ne_of_not_eventLe hxy
      by_cases hxk : (x.date == k) = true
      · have hyk : (y.date == k) = false :=
          beq_eq_false_iff_ne.mpr
            (fun he => hne ((beq_iff_eq.mp hxk).trans he.symm))
        simp [List.filter_cons, ih, hxk, hyk]
      · have hxk2 : (x.date == k) = false := by
          rwa [Bool.not_eq_true] at hxk
        simp [List.filter_cons, ih, hxk2]

theorem filter_sortEvents (k : String) :
    ∀ l : List EventRecord,
      (sortEvents l).filter (fun e => e.date == k) = l.filter (fun e => e.date == k) := by
  intro l
  induction l with
  | nil => rfl
  | cons x xs ih =>
    unfold sortEvents at ih ⊢
    rw [List.insertionSort, filter_orderedInsert]
    by_cases hxk : (x.date == k) = true <;> simp [List.filter_cons, hxk, ih]

theorem sortEvents_sorted (l : List EventRecord) : List.Sorted eventLe (sortEvents l) :=
  List.sorted_insertionSort eventLe l

theorem foldl_fetch_all :
    ∀ (ps : List (String × Except String (List EventRecord)))
      (acc : List EventRecord × List String),
      ps.foldl
        (fun acc kv =>
          match kv.2 with
          | Except.ok evs => (acc.1 ++ evs, acc.2)
          | Except.error e => (acc.1, acc.2 ++ [logMsg kv.1 e]))
        acc =
      (acc.1 ++ successRecords ps, acc.2 ++ failureLogs ps) := by
  intro ps
  induction ps with
  | nil =>
    intro acc
    simp [successRecords, failureLogs]
  | cons kv ps ih =>
    intro acc
    rcases kv with ⟨key, r⟩
    cases r with
    | ok evs =>
      simp only [List.foldl_cons, successRecords, failureLogs, ih, List.append_assoc]
    | error e =>
      simp only [List.foldl_cons, successRecords, failureLogs, ih, List.append_assoc,
        List.singleton_append]

theorem fetch_all_eq (ps : List (String × Except String (List EventRecord))) :
    fetch_all ps = (sortEvents (successRecords ps), failureLogs ps) := by
  unfold fetch_all
  rw [foldl_fetch_all]
  simp

theorem mem_failureLogs {key e : String} :
    ∀ ps : List (String × Except String (List EventRecord)),
      (key, Except.error e) ∈ ps → logMsg key e ∈ failureLogs ps := by
  intro ps
  induction ps with
  | nil => intro h; cases h
  | cons kv ps ih =>
    intro h
    rcases List.mem_cons.mp h with h1 | h1
    · rw [← h1]
      simp [failureLogs]
    · rcases kv with ⟨k2, r2⟩
      cases r2 with
      | ok evs => simpa [failureLogs] using ih h1
      | error e2 => simp [failureLogs, ih h1]

theorem captureMacro_eq : ∀ ls : List String,
    captureMacro ls =
      (((ls.takeWhile fun l => !(strStartsWith (strToLower l) "date")).filter
          fun l => !(strStartsWith (strToLower l) "title") && !(l == "")).map pyStripQuotes,
        ls.dropWhile fun l => !(strStartsWith (strToLower l) "date")) := by
  intro ls
  induction ls with
  | nil => rfl
  | cons l ls ih =>
    simp only [captureMacro]
    by_cases h1 : strStartsWith (strToLower l) "date"
    · simp [h1, List.takeWhile_cons, List.dropWhile_cons]
    · by_cases h2 : strStartsWith (strToLower l) "title"
      · simp [h1, h2, List.takeWhile_cons, List.dropWhile_cons, List.filter_cons, ih]
      · by_cases h3 : l = ""
        · subst h3
          simp [h1, h2, List.takeWhile_cons, List.dropWhile_cons, List.filter_cons, ih]
        · simp [h1, h2, h3, List.takeWhile_cons, List.dropWhile_cons, List.filter_cons, ih]

theorem captureUrban_eq : ∀ ls : List String,
    captureUrban ls =
      (((ls.takeWhile fun l => !(stopUrban l)).filter
          fun l => !(l == "")).map pyStripQuotes,
        ls.dropWhile fun l => !(stopUrban l)) := by
  intro ls
  induction ls with
  | nil => rfl
  | cons l ls ih =>
    simp only [captureUrban]
    by_cases h1 : stopUrban l
    · simp [h1, List.takeWhile_cons, List.dropWhile_cons]
    · by_cases h3 : l = ""
      · subst h3
        simp [h1, List.takeWhile_cons, List.dropWhile_cons, List.filter_cons, ih]
      · simp [h1, h3, List.takeWhile_cons, List.dropWhile_cons, List.filter_cons, ih]

theorem captureStats_eq : ∀ ls : List String,
    captureStats ls =
      (((ls.takeWhile fun l => !(stopStats l)).filter
          fun l => !(l == "")).map pyStripQuotes,
        ls.dropWhile fun l => !(stopStats l)) := by
  intro ls
  induction ls with
  | nil => rfl
  | cons l ls ih =>
    simp only [captureStats]
    by_cases h1 : stopStats l
    · simp [h1, List.takeWhile_cons, List.dropWhile_cons]
    · by_cases h3 : l = ""
      · subst h3
        simp [h1, List.takeWhile_cons, List.dropWhile_cons, List.filter_cons, ih]
      · simp [h1, h3, List.takeWhile_cons, List.dropWhile_cons, List.filter_cons, ih]

/-! ### Claim theorems -/

/-- C1: the spec (and `parse_macro`'s own docstring) require that whenever a
captured content line contains "TBA" (case-insensitively) the emitted `info`
is exactly "TBA".  The code evaluated at a macro page whose title line is
"TBA study" emits `info = "Jane Doe, TBA study"`: the captured content
contains "TBA" but the joined string is emitted unchanged — the TBA collapse
is implemented only in `parse_micro`, not in the line-scanning
extractors. -/
theorem c1_tba_collapse_missing :
    parse_macro ["Date & Time:", "July 10 (Thu)", "Speaker:", "Jane Doe",
        "Title:", "TBA study"] ⟨2025, 1, 1⟩ =
      Except.ok [⟨"2025-07-10", "Macroeconomics WS", "Jane Doe, TBA study"⟩] ∧
    strContains "tba" (strToLower "Jane Doe, TBA study") = true ∧
    "Jane Doe, TBA study" ≠ "TBA" :=
  ⟨rfl, rfl, by decide⟩

/-- C2: every record emitted by any of the five extractors carries a date on
or after the run's reference `today`, and that date is a genuine parsed
calendar date (the ISO rendering of some date for the line-scanning
extractors; a string accepted by `fromisoformat` for the two-step
extractor) — never a null or placeholder. -/
theorem c2_no_past_events :
    (∀ (lines : List String) (today : Date) (evs : List EventRecord),
      parse_macro lines today = Except.ok evs →
      ∀ e ∈ evs, ∃ d, Date.leB today d = true ∧ e.date = Date.isoformat d) ∧
    (∀ (lines : List String) (today : Date) (evs : List EventRecord),
      parse_urban lines today = Except.ok evs →
      ∀ e ∈ evs, ∃ d, Date.leB today d = true ∧ e.date = Date.isoformat d) ∧
    (∀ (lines : List String) (today : Date) (evs : List EventRecord),
      parse_stats lines today = Except.ok evs →
      ∀ e ∈ evs, ∃ d, Date.leB today d = true ∧ e.date = Date.isoformat d) ∧
    (∀ (lines : List String) (today : Date) (evs : List EventRecord),
      parse_empirical lines today = Except.ok evs →
      ∀ e ∈ evs, ∃ d, Date.leB today d = true ∧ e.date = Date.isoformat d) ∧
    (∀ (entries : List MicroEntry) (today : Date) (evs : List EventRecord),
      parse_micro entries today = Except.ok evs →
      ∀ e ∈ evs, ∃ d, fromisoformat e.date = some d ∧ Date.leB today d = true) := by
  refine ⟨?_, ?_, ?_, ?_, ?_⟩
  · intro lines today evs h
    unfold parse_macro at h
    exact parse_macro_go_good today _ _ _ _
      (fun e he => absurd he (List.not_mem_nil e)) h
  · intro lines today evs h
    unfold parse_urban at h
    exact parse_urban_go_good today _ _ _ _
      (fun e he => absurd he (List.not_mem_nil e)) h
  · intro lines today evs h
    unfold parse_stats at h
    exact parse_stats_go_good today _ _ _ _
      (fun e he => absurd he (List.not_mem_nil e)) h
  · intro lines today evs h
    unfold parse_empirical at h
    exact parse_empirical_go_good today _ _ _ _ _
      (fun e he => absurd he (List.not_mem_nil e)) h
  · intro entries today evs h
    unfold parse_micro at h
    exact parse_micro_go_good today _ _ _
      (fun e he => absurd he (List.not_mem_nil e)) h

/-- Witness for C2: each extractor, run on a concrete page emitting one
record, yields a record whose date is on or after the reference today. -/
theorem c2_no_past_events_witness :
    (∃ d, Date.leB ⟨2025, 1, 1⟩ d = true ∧
      (EventRecord.mk "2025-07-10" "Macroeconomics WS" "Alice").date = Date.isoformat d) ∧
    (∃ d, Date.leB ⟨2025, 1, 1⟩ d = true ∧
      (EventRecord.mk "2025-07-10" "Urban Economics WS" "Alice").date = Date.isoformat d) ∧
    (∃ d, Date.leB ⟨2025, 1, 1⟩ d = true ∧
      (EventRecord.mk "2025-07-10" "Applied Statistics WS" "Alice").date = Date.isoformat d) ∧
    (∃ d, Date.leB ⟨2025, 1, 1⟩ d = true ∧
      (EventRecord.mk "2025-07-10" "Empirical Micro WS" "Alice").date = Date.isoformat d) ∧
    (∃ d, fromisoformat
        (EventRecord.mk "2025-07-10" "Micro Theory WS" "Alice, Games").date = some d ∧
      Date.leB ⟨2025, 1, 1⟩ d = true) :=
  ⟨c2_no_past_events.1 ["Date:", "July 10", "Speaker:", "Alice"] ⟨2025, 1, 1⟩
      [⟨"2025-07-10", "Macroeconomics WS", "Alice"⟩] rfl _ (List.mem_singleton.mpr rfl),
   c2_no_past_events.2.1 ["日時", "July 10", "報告", "Alice"] ⟨2025, 1, 1⟩
      [⟨"2025-07-10", "Urban Economics WS", "Alice"⟩] rfl _ (List.mem_singleton.mpr rfl),
   c2_no_past_events.2.2.1 ["日時", "July 10", "報告", "Alice"] ⟨2025, 1, 1⟩
      [⟨"2025-07-10", "Applied Statistics WS", "Alice"⟩] rfl _ (List.mem_singleton.mpr rfl),
   c2_no_past_events.2.2.2.1 ["July 10", "Speaker and Title", "Alice"] ⟨2025, 1, 1⟩
      [⟨"2025-07-10", "Empirical Micro WS", "Alice"⟩] rfl _ (List.mem_singleton.mpr rfl),
   c2_no_past_events.2.2.2.2
      [⟨some "2025-07-10T10:00:00", true,
        ["Alice Microeconomic Theory Workshop", "Title: Games"]⟩] ⟨2025, 1, 1⟩
      [⟨"2025-07-10", "Micro Theory WS", "Alice, Games"⟩] rfl _ (List.mem_singleton.mpr rfl)⟩

/-- C6: `strip_weekday`'s docstring (and the spec) state that
`"July 10 (Thu) 10:25-12:10"` maps to `"July 10"`, but the substitution only
removes the parenthesized weekday: the trailing time range survives, and the
function returns `"July 10  10:25-12:10"`. -/
theorem c6_strip_weekday_keeps_time :
    strip_weekday "July 10 (Thu) 10:25-12:10" = "July 10  10:25-12:10" ∧
    strip_weekday "July 10 (Thu) 10:25-12:10" ≠ "July 10" :=
  ⟨rfl, by decide⟩

/-- C3 counterexample: the claim says a parsed date strictly before today in
a first-quarter month always comes back with its year incremented, but for
`"2024年2月29日"` (parsed to the leap day 2024-02-29, before the reference
2025-09-01 and with month ≤ 3) `date.replace(year=2025)` raises
`ValueError` — 2025-02-29 does not exist — and the exception escapes
`normalize_date`'s `try`, which guards only the parse call. -/
theorem c3_rollover_counterexample :
    du_parse "2024年2月29日" 2025 = some ⟨2024, 2, 29⟩ ∧
    Date.ltB ⟨2024, 2, 29⟩ ⟨2025, 9, 1⟩ = true ∧
    (⟨2024, 2, 29⟩ : Date).month ≤ 3 ∧
    normalize_date "2024年2月29日" 2025 ⟨2025, 9, 1⟩ = Except.error "ValueError" :=
  ⟨rfl, rfl, by decide, rfl⟩

/-- C3 amended: the resolver increments the year of a parsed date strictly
before today with month January–March and otherwise returns the parsed date
unchanged — except that when the incremented date is invalid (the parsed
date is February 29, or its year is 9999) the resolver raises an unhandled
`ValueError` instead of returning.  The spec's concrete example holds:
resolving "February 2" with default year 2025 against reference today
2025-09-01 yields 2026-02-02. -/
theorem c3_rollover_amended :
    normalize_date "February 2" 2025 ⟨2025, 9, 1⟩ = Except.ok (some ⟨2026, 2, 2⟩) ∧
    ∀ (raw : String) (y : Nat) (today d : Date), du_parse raw y = some d →
      (¬(Date.ltB d today = true ∧ d.month ≤ 3) →
        normalize_date raw y today = Except.ok (some d)) ∧
      (Date.ltB d today = true → d.month ≤ 3 →
        ¬(d.month = 2 ∧ d.day = 29) → d.year ≠ 9999 →
        normalize_date raw y today = Except.ok (some ⟨d.year + 1, d.month, d.day⟩)) ∧
      (Date.ltB d today = true → d.month ≤ 3 →
        (d.month = 2 ∧ d.day = 29) ∨ d.year = 9999 →
        normalize_date raw y today = Except.error "ValueError") := by
  refine ⟨rfl, ?_⟩
  intro raw y today d h
  have hv : d.valid = true := du_parse_valid h
  unfold normalize_date
  rw [h]
  dsimp only
  refine ⟨?_, ?_, ?_⟩
  · intro hnot
    rw [if_neg (by
      intro hc
      rcases Bool.and_eq_true _ _ |>.mp hc with ⟨h1, h2⟩
      exact hnot ⟨h1, of_decide_eq_true h2⟩)]
  · intro h1 h2 h3 h4
    rw [if_pos (by rw [h1]; simpa using h2), replaceYear_succ hv,
      if_neg (by tauto)]
  · intro h1 h2 h3
    rw [if_pos (by rw [h1]; simpa using h2), replaceYear_succ hv, if_pos h3]

/-- Witness for C3 amended: the rollover branch at "February 2"
(2025-02-02 < 2025-09-01, month ≤ 3, not a leap day) and the unchanged
branch at "July 10" (month > 3). -/
theorem c3_rollover_amended_witness :
    normalize_date "February 2" 2025 ⟨2025, 9, 1⟩ = Except.ok (some ⟨2026, 2, 2⟩) ∧
    normalize_date "July 10" 2025 ⟨2025, 9, 1⟩ = Except.ok (some ⟨2025, 7, 10⟩) :=
  ⟨(c3_rollover_amended.2 "February 2" 2025 ⟨2025, 9, 1⟩ ⟨2025, 2, 2⟩ rfl).2.1
      rfl (by decide) (by decide) (by decide),
   (c3_rollover_amended.2 "July 10" 2025 ⟨2025, 9, 1⟩ ⟨2025, 7, 10⟩ rfl).1
      (by decide)⟩

/-- C4: the aggregated output of `fetch_all` is sorted non-decreasingly by
the records' date strings, and the sort is stable: for every date key, the
records carrying that date appear in the same relative order as in the
concatenation of the successful extractors' outputs taken in registry
order. -/
theorem c4_sorted_and_stable :
    ∀ parsers : List (String × Except String (List EventRecord)),
      List.Sorted eventLe (fetch_all parsers).1 ∧
      ∀ k : String,
        (fetch_all parsers).1.filter (fun e => e.date == k) =
          (successRecords parsers).filter (fun e => e.date == k) := by
  intro parsers
  rw [fetch_all_eq]
  exact ⟨sortEvents_sorted _, fun k => filter_sortEvents k _⟩

/-- C5: the aggregator's output is exactly the sorted concatenation of the
successful extractors' records; an extractor that raises contributes zero
records but a log line naming it and the error, and it never prevents the
other extractors' records from appearing. -/
theorem c5_error_isolation :
    ∀ parsers : List (String × Except String (List EventRecord)),
      fetch_all parsers = (sortEvents (successRecords parsers), failureLogs parsers) ∧
      ∀ key e, (key, Except.error e) ∈ parsers → logMsg key e ∈ (fetch_all parsers).2 := by
  intro parsers
  refine ⟨fetch_all_eq parsers, ?_⟩
  intro key e hmem
  rw [fetch_all_eq]
  exact mem_failureLogs parsers hmem

/-- Witness for C5: with the middle extractor failing, the output holds
exactly the two successful extractors' records, sorted, and the log line
names the failing extractor and its error. -/
theorem c5_error_isolation_witness :
    fetch_all [("macro", Except.ok [⟨"2025-07-12", "Macroeconomics WS", "a"⟩]),
        ("urban", Except.error "boom"),
        ("stats", Except.ok [⟨"2025-07-10", "Applied Statistics WS", "b"⟩])] =
      (sortEvents (successRecords
          [("macro", Except.ok [⟨"2025-07-12", "Macroeconomics WS", "a"⟩]),
           ("urban", Except.error "boom"),
           ("stats", Except.ok [⟨"2025-07-10", "Applied Statistics WS", "b"⟩])]),
        failureLogs
          [("macro", Except.ok [⟨"2025-07-12", "Macroeconomics WS", "a"⟩]),
           ("urban", Except.error "boom"),
           ("stats", Except.ok [⟨"2025-07-10", "Applied Statistics WS", "b"⟩])]) ∧
    logMsg "urban" "boom" ∈ (fetch_all
        [("macro", Except.ok [⟨"2025-07-12", "Macroeconomics WS", "a"⟩]),
         ("urban", Except.error "boom"),
         ("stats", Except.ok [⟨"2025-07-10", "Applied Statistics WS", "b"⟩])]).2 :=
  ⟨(c5_error_isolation _).1,
   (c5_error_isolation _).2 "urban" "boom"
     (List.mem_cons_of_mem _ (List.mem_cons_self _ _))⟩

/-- C7 counterexample: in `parse_macro` the capture loop does not stop at a
recognized field label or an abstract marker — it stops only at another
`date` line.  On a concrete page the lines "Abstract" and "Secret" after the
speaker are captured into `info` rather than terminating the capture, so the
claimed stop condition is violated. -/
theorem c7_capture_counterexample :
    parse_macro ["Date:", "July 10", "Speaker:", "Alice", "Abstract", "Secret"]
        ⟨2025, 1, 1⟩ =
      Except.ok [⟨"2025-07-10", "Macroeconomics WS", "Alice, Abstract, Secret"⟩] ∧
    captureMacro ["Alice", "Abstract", "Secret"] ≠ (["Alice"], ["Abstract", "Secret"]) :=
  ⟨rfl, by decide⟩

/-- C7 amended: content capture trims surrounding quotation marks of the
collected non-empty lines, but the stop conditions differ per extractor:
`parse_urban` stops exactly at a 日時 line, a venue/speaker/report/date-label
match, or an abstract/要旨 marker; `parse_stats` the same except that 要旨 is
not a stop marker (its `ABS_RE` knows only "abstract"); `parse_macro` stops
only at another date-label line, skipping `Title`-labelled lines and
capturing everything else — including venue/speaker labels and abstract
markers — as content. -/
theorem c7_capture_stop_conditions :
    ∀ ls : List String,
      captureMacro ls =
        (((ls.takeWhile fun l => !(strStartsWith (strToLower l) "date")).filter
            fun l => !(strStartsWith (strToLower l) "title") && !(l == "")).map pyStripQuotes,
          ls.dropWhile fun l => !(strStartsWith (strToLower l) "date")) ∧
      captureUrban ls =
        (((ls.takeWhile fun l => !(stopUrban l)).filter
            fun l => !(l == "")).map pyStripQuotes,
          ls.dropWhile fun l => !(stopUrban l)) ∧
      captureStats ls =
        (((ls.takeWhile fun l => !(stopStats l)).filter
            fun l => !(l == "")).map pyStripQuotes,
          ls.dropWhile fun l => !(stopStats l)) :=
  fun ls => ⟨captureMacro_eq ls, captureUrban_eq ls, captureStats_eq ls⟩

/-- C8 counterexample: the byte pair `B4 C1` is invalid UTF-8 and valid
Shift_JIS (two half-width katakana, "ｴﾁ"), yet the decode chain returns the
EUC-JP reading (a single JIS X 0208 character), because EUC-JP is tried
before Shift_JIS — being invalid UTF-8 and valid Shift_JIS does not imply
the Shift_JIS text is returned. -/
theorem c8_decode_counterexample :
    decodeUtf8 [0xB4, 0xC1] = none ∧
    decodeSjis [0xB4, 0xC1] = some "ｴﾁ".toList ∧
    fetch_decode [0xB4, 0xC1] ≠ "ｴﾁ" :=
  ⟨rfl, rfl, by decide⟩

/-- C8 amended: the decode chain tries UTF-8, EUC-JP, Shift_JIS and CP932
in that order, returns the first successful decode, and falls back to the
lossy decode instead of raising when all four fail; consequently a byte
sequence invalid in both UTF-8 and EUC-JP but valid Shift_JIS decodes to the
Shift_JIS text (invalid UTF-8 alone does not suffice — EUC-JP is tried
first). -/
theorem c8_decode_order :
    (∀ bs cs, decodeUtf8 bs = some cs → fetch_decode bs = String.mk cs) ∧
    (∀ bs cs, decodeUtf8 bs = none → decodeEucJp bs = some cs →
      fetch_decode bs = String.mk cs) ∧
    (∀ bs cs, decodeUtf8 bs = none → decodeEucJp bs = none →
      decodeSjis bs = some cs → fetch_decode bs = String.mk cs) ∧
    (∀ bs cs, decodeUtf8 bs = none → decodeEucJp bs = none →
      decodeSjis bs = none → decodeCp932 bs = some cs →
      fetch_decode bs = String.mk cs) ∧
    (∀ bs, decodeUtf8 bs = none → decodeEucJp bs = none →
      decodeSjis bs = none → decodeCp932 bs = none →
      fetch_decode bs = lossyDecode bs) := by
  refine ⟨?_, ?_, ?_, ?_, ?_⟩
  · intro bs cs h1
    simp [fetch_decode, h1]
  · intro bs cs h1 h2
    simp [fetch_decode, h1, h2]
  · intro bs cs h1 h2 h3
    simp [fetch_decode, h1, h2, h3]
  · intro bs cs h1 h2 h3 h4
    simp [fetch_decode, h1, h2, h3, h4]
  · intro bs h1 h2 h3 h4
    simp [fetch_decode, h1, h2, h3, h4]

/-- Witness for C8 amended: `93 8C` is invalid UTF-8, invalid EUC-JP and
valid Shift_JIS, and the chain returns its Shift_JIS decoding. -/
theorem c8_decode_order_witness :
    decodeUtf8 [0x93, 0x8C] = none ∧ decodeEucJp [0x93, 0x8C] = none ∧
    ∃ cs, decodeSjis [0x93, 0x8C] = some cs ∧ fetch_decode [0x93, 0x8C] = String.mk cs :=
  ⟨rfl, rfl, _, rfl, c8_decode_order.2.2.1 _ _ rfl rfl rfl⟩

/-- C9: the resolver accepts the Japanese `YYYY年M月D日` form (the spec's
example resolves to 2025-07-10 for every reference today, its month being
past March), accepts the Western `"Month Day"` form with the reference year
filled in as default, and maps any unparseable token to `none` (`.ok none`,
a dropped record) rather than an error. -/
theorem c9_date_token_forms :
    (∀ today, normalize_date "2025年7月10日" 2025 today = Except.ok (some ⟨2025, 7, 10⟩)) ∧
    (∀ y, 1 ≤ y → y ≤ 9999 → du_parse "July 10" y = some ⟨y, 7, 10⟩) ∧
    (∀ (s : String) (y : Nat) (today : Date),
      du_parse s y = none → normalize_date s y today = Except.ok none) := by
  refine ⟨?_, ?_, ?_⟩
  · intro today
    unfold normalize_date
    rw [show du_parse "2025年7月10日" 2025 = some ⟨2025, 7, 10⟩ from rfl]
    dsimp only
    rw [if_neg (by simp)]
  · intro y h1 h2
    have hstep : du_parse "July 10" y =
        if (⟨y, 7, 10⟩ : Date).valid = true then some ⟨y, 7, 10⟩ else none := by
      unfold du_parse
      rw [if_neg (by
        simp only [Bool.or_eq_true, decide_eq_true_eq]
        omega)]
      rfl
    rw [hstep, if_pos (by
      simp only [Date.valid, daysInMonth, isLeap, Bool.and_eq_true, decide_eq_true_eq]
      refine ⟨⟨⟨⟨⟨h1, h2⟩, by omega⟩, by omega⟩, by omega⟩, by norm_num⟩)]
  · intro s y today h
    unfold normalize_date
    rw [h]

/-- Witness for C9: the Western form with the default year 2025, and an
unparseable label line resolving to a dropped record. -/
theorem c9_date_token_forms_witness :
    du_parse "July 10" 2025 = some ⟨2025, 7, 10⟩ ∧
    normalize_date "Venue:" 2025 ⟨2025, 9, 1⟩ = Except.ok none :=
  ⟨c9_date_token_forms.2.1 2025 (by decide) (by decide),
   c9_date_token_forms.2.2 "Venue:" 2025 ⟨2025, 9, 1⟩ rfl⟩

/-- C10: every record emitted by the two-step extractor carries, verbatim,
the prefix before the first "T" of the `datetime` attribute of some list
entry — the date resolver and its rollover heuristic are never applied to
this source. -/
theorem c10_micro_date_verbatim :
    ∀ (entries : List MicroEntry) (today : Date) (evs : List EventRecord),
      parse_micro entries today = Except.ok evs →
      ∀ e ∈ evs, ∃ ent ∈ entries, ∃ s, ent.time_datetime = some s ∧
        e.date = beforeCharT s := by
  intro entries today evs h e he
  unfold parse_micro at h
  rcases parse_micro_go_dates today entries [] evs h e he with h1 | h2
  · exact absurd h1 (List.not_mem_nil e)
  · exact h2

/-- Witness for C10: the concrete run's record carries exactly the
attribute's text before the "T". -/
theorem c10_micro_date_verbatim_witness :
    ∃ ent ∈ ([⟨some "2025-07-10T10:00:00", true,
          ["Alice Microeconomic Theory Workshop", "Title: Games"]⟩] : List MicroEntry),
      ∃ s, ent.time_datetime = some s ∧
        (EventRecord.mk "2025-07-10" "Micro Theory WS" "Alice, Games").date = beforeCharT s :=
  c10_micro_date_verbatim
    [⟨some "2025-07-10T10:00:00", true,
      ["Alice Microeconomic Theory Workshop", "Title: Games"]⟩] ⟨2025, 1, 1⟩
    [⟨"2025-07-10", "Micro Theory WS", "Alice, Games"⟩] rfl _ (List.mem_singleton.mpr rfl)
